import Mathlib

/-!
Verification of the DeepOBS runner utilities and the cifar10_vgg16
test problem against their natural-language specification.

The Python sources are shallowly embedded:
* Python floats are modelled as rationals (`ℚ`); no claim here depends on
  binary rounding of the inputs involved, and the decimal formatting code
  (`float2str`) is modelled exactly, digit by digit, over the rational value.
* `numpy` calls (`np.where`, `np.argmax`) are modelled by functions with the
  same observable behaviour on integer arrays.
* Fallible Python code (IndexError / ValueError / TypeError, `argparse`
  error-and-exit) is modelled with `Option` / `Except`.
* Python dicts are modelled as association lists (with Python's
  assignment-overwrite semantics) or, for the final merged argument mapping,
  by their lookup function.
-/

namespace DeepOBS

/-! ## float2str (runner_utils.py, lines 9-12)

Python:
```
def float2str(x):
    s = "\x7b:.10e\x7d".format(x)
    mantissa, exponent = s.split("e")
    return mantissa.rstrip("0") + "e" + exponent
```
`"\x7b:.10e\x7d".format(x)` prints `x` in scientific notation with exactly ten
fractional digits (round-half-even), e.g. `"1.0000000000e+00"`; the exponent
carries a sign and at least two digits.  We reproduce that formatting for a
positive rational given as numerator/denominator, using only `Nat`/`Int`
arithmetic so that everything reduces in the kernel. -/

/-- Number of decimal digits of a natural number (1 for 0). -/
def decDigits (n : ℕ) : ℕ := (Nat.repr n).length

/-- Decides `10 ^ e ≤ n / d` for `n d : ℕ`, `d ≠ 0`, via cross-multiplication. -/
def tenPowLe (e : ℤ) (n d : ℕ) : Bool :=
  if 0 ≤ e then decide (10 ^ e.toNat * d ≤ n) else decide (d ≤ 10 ^ (-e).toNat * n)

/-- `⌊log₁₀ (n / d)⌋` for `n, d ≥ 1`, computed from digit counts plus one
correction step. -/
def floorLog10 (n d : ℕ) : ℤ :=
  let e0 : ℤ := (decDigits n : ℤ) - (decDigits d : ℤ)
  if tenPowLe e0 n d then e0 else e0 - 1

/-- Round `(n / d) * 10 ^ (10 - e)` to the nearest integer, ties to even
(the rounding used when formatting with ten fractional digits). -/
def roundMantissa (n d : ℕ) (e : ℤ) : ℕ :=
  let p : ℤ := 10 - e
  let A := n * 10 ^ (max p 0).toNat
  let B := d * 10 ^ (max (-p) 0).toNat
  let q := A / B
  let r := A % B
  if 2 * r < B then q else if B < 2 * r then q + 1 else if q % 2 = 0 then q else q + 1

/-- The mantissa characters (`d.dddddddddd`) and decimal exponent of the
`.10e` formatting of `n / d`, for `n, d ≥ 1`. -/
def sciParts (n d : ℕ) : List Char × ℤ :=
  let e := floorLog10 n d
  let M := roundMantissa n d e
  let Me : ℕ × ℤ := if 10 ^ 11 ≤ M then (10 ^ 10, e + 1) else (M, e)
  let ds := (Nat.repr Me.1).data
  (ds.take 1 ++ '.' :: ds.drop 1, Me.2)

/-- Python `mantissa.rstrip("0")`: remove trailing `'0'` characters. -/
def rstrip0 (s : List Char) : List Char :=
  (s.reverse.dropWhile (fun c => c == '0')).reverse

/-- The exponent part of `.10e` formatting: a sign and at least two digits. -/
def expoStr (e : ℤ) : String :=
  let a := e.natAbs
  (if e < 0 then "-" else "+") ++ (if a < 10 then "0" ++ Nat.repr a else Nat.repr a)

/-- `float2str` from `runner_utils.py`: format with ten fractional digits in
scientific notation, then strip trailing zeros from the mantissa. -/
def float2str (x : ℚ) : String :=
  let sign := if x < 0 then "-" else ""
  let n := x.num.natAbs
  let p := if n = 0 then (("0.0000000000").data, (0 : ℤ)) else sciParts n x.den
  sign ++ String.mk (rstrip0 p.1) ++ "e" ++ expoStr p.2

/-- Does a character list end in the digit `'0'`? -/
def endsInZeroB (l : List Char) : Bool :=
  match l.getLast? with
  | some c => c == '0'
  | Option.none => false

/-! ## make_lr_schedule (runner_utils.py, lines 64-103)

Python (the learning-rate multiplier function wrapped into `LambdaLR`):
```
if (lr_sched_factors is None) or (lr_sched_epochs is None):
    determine_lr = lambda epoch: 1
else:
    def determine_lr(epoch):
        if epoch < lr_sched_epochs[0]:
            return 1
        else:
            help_array = np.array(lr_sched_epochs)
            index = np.argmax(np.where(help_array <= epoch)[0])
            return lr_sched_factors[index]
```
`np.where(a <= epoch)[0]` is the ascending list of positions whose entry is
`≤ epoch`; `np.argmax` is the position of the first maximum of that list and
raises on an empty array; Python list indexing raises when out of range.
`Option` models the raised exceptions. -/

/-- `np.where(np.array(eps) <= epoch)[0]`: ascending positions with entry
`≤ epoch`. -/
def npWhereLe (eps : List ℤ) (epoch : ℤ) : List ℕ :=
  (List.range eps.length).filter (fun i => decide (eps.getD i 0 ≤ epoch))

/-- Scan for `np.argmax`: position of the first maximum. -/
def npArgmaxAux : List ℕ → ℕ → ℕ → ℕ → ℕ
  | [], _, best, _ => best
  | x :: xs, i, best, bestVal =>
      if bestVal < x then npArgmaxAux xs (i + 1) i x
      else npArgmaxAux xs (i + 1) best bestVal

/-- `np.argmax`: position of the first maximum; `none` on an empty array
(numpy raises ValueError). -/
def npArgmax : List ℕ → Option ℕ
  | [] => Option.none
  | x :: xs => some (npArgmaxAux xs 1 0 x)

/-- The inner `determine_lr` closure of `make_lr_schedule`. -/
def determine_lr (lr_sched_epochs : List ℤ) (lr_sched_factors : List ℚ)
    (epoch : ℤ) : Option ℚ :=
  match lr_sched_epochs.head? with
  | Option.none => Option.none
  | some e0 =>
    if epoch < e0 then some 1
    else
      match npArgmax (npWhereLe lr_sched_epochs epoch) with
      | Option.none => Option.none
      | some index => lr_sched_factors.get? index

/-- `make_lr_schedule`, as the epoch-to-multiplier function it installs in the
`LambdaLR` scheduler (`None` list arguments modelled by `Option`). -/
def make_lr_schedule (lr_sched_epochs : Option (List ℤ))
    (lr_sched_factors : Option (List ℚ)) : ℤ → Option ℚ :=
  match lr_sched_factors, lr_sched_epochs with
  | some facs, some eps => determine_lr eps facs
  | _, _ => fun _ => some 1

/-- Modelled from the spec: the multiplier the schedule builder is documented
to produce — `1` before the first breakpoint, otherwise the factor whose
breakpoint is the largest breakpoint `≤ epoch`. -/
def specLrMultiplier (eps : List ℤ) (facs : List ℚ) (epoch : ℤ) : Option ℚ :=
  match eps.head? with
  | Option.none => Option.none
  | some e0 =>
    if epoch < e0 then some 1
    else
      match ((eps.enum).filter (fun p => decide (p.2 ≤ epoch))).argmax
          (fun p => p.2) with
      | Option.none => Option.none
      | some p => facs.get? p.1

/-! ## cifar10_vgg16.get_regularization_loss (cifar10_vgg16.py, lines 22-33)

Python:
```
layer_norms = []
for parameters_name, parameters in self.net.named_parameters():
    if 'bias' not in parameters_name:
        layer_norms.append(parameters.pow(2).sum())
regularization_loss = 0.5 * sum(layer_norms)
return self._weight_decay * regularization_loss
```
The network state is modelled by its list of named parameters, each parameter
a (flattened) list of entries. -/

/-- Python's substring test (`sub in s`) on strings. -/
def hasSubstr (s : String) (sub : String) : Bool :=
  (List.range (s.data.length + 1)).any
    (fun i => ((s.data.drop i).take sub.data.length) == sub.data)

/-- `parameters.pow(2).sum()` for a flattened parameter tensor. -/
def sumOfSquares (p : List ℚ) : ℚ := (p.map (fun x => x ^ 2)).sum

/-- `get_regularization_loss`, over a network state given by its named
parameters. -/
def get_regularization_loss (weight_decay : ℚ)
    (named_parameters : List (String × List ℚ)) : ℚ :=
  let layer_norms :=
    (named_parameters.filter (fun p => !(hasSubstr p.1 "bias"))).map
      (fun p => sumOfSquares p.2)
  let regularization_loss := (1 / 2 : ℚ) * layer_norms.sum
  weight_decay * regularization_loss

/-- Modelled from the spec: the weight-decay coefficient multiplied by the sum
of the squared norms of exactly the parameters whose names do not contain
`bias` (no factor one half). -/
def claimedRegLoss (weight_decay : ℚ)
    (named_parameters : List (String × List ℚ)) : ℚ :=
  weight_decay *
    ((named_parameters.filter (fun p => !(hasSubstr p.1 "bias"))).map
      (fun p => sumOfSquares p.2)).sum

/-! ## make_run_name (runner_utils.py, lines 15-61)

The timestamp appended to the file name (`time.strftime(...)`, a wall-clock
read) is modelled as an explicit input.  Hyperparameter values are floats
(formatted through `float2str`), or other Python values formatted through
`str` (ints and strings here).  The `zip` in the schedule branch raises
TypeError when `lr_sched_factors is None`, modelled by `Option.none`. -/

/-- Code-point comparison of characters, as Python compares strings. -/
def charLt (a b : Char) : Bool := a.toNat < b.toNat

/-- Lexicographic comparison of character lists. -/
def strLtAux : List Char → List Char → Bool
  | [], [] => false
  | [], _ :: _ => true
  | _ :: _, [] => false
  | a :: as, b :: bs => if charLt a b then true else if charLt b a then false else strLtAux as bs

/-- Python's `<` on strings: lexicographic by code points. -/
def strLt (a b : String) : Bool := strLtAux a.data b.data

/-- A Python value stored as an optimizer hyperparameter. -/
inductive HPValue where
  | float : ℚ → HPValue
  | int : ℤ → HPValue
  | str : String → HPValue
deriving DecidableEq

/-- `float2str(hp_value) if isinstance(hp_value, float) else str(hp_value)`. -/
def hpValueStr : HPValue → String
  | .float q => float2str q
  | .int n => Int.repr n
  | .str s => s

/-- Order used by `sorted(optimizer_hyperparams.items())`: by name (the dict
keys are unique, so the name decides). -/
def hpSortRel : (String × HPValue) → (String × HPValue) → Prop :=
  fun a b => strLt a.1 b.1 = true

instance : DecidableRel hpSortRel := fun _ _ => instDecidableEqBool _ _

/-- `make_run_name`: the run folder name and output file name. -/
def make_run_name (weight_decay : Option ℚ) (batch_size num_epochs : ℤ)
    (learning_rate : ℚ) (lr_sched_epochs : Option (List ℤ))
    (lr_sched_factors : Option (List ℚ)) (random_seed : ℤ)
    (optimizer_hyperparams : List (String × HPValue)) (timestamp : String) :
    Option (String × String) :=
  let s1 := "num_epochs__" ++ Int.repr num_epochs ++ "__batch_size__" ++
    Int.repr batch_size ++ "__"
  let s2 := match weight_decay with
    | some wd => s1 ++ "weight_decay__" ++ float2str wd ++ "__"
    | Option.none => s1
  let s3 := (List.insertionSort hpSortRel optimizer_hyperparams).foldl
      (fun acc p => acc ++ p.1 ++ "__" ++ hpValueStr p.2 ++ "__") s2
  let folder : Option String := match lr_sched_epochs with
    | Option.none => some (s3 ++ "lr__" ++ float2str learning_rate)
    | some eps =>
      match lr_sched_factors with
      | Option.none => Option.none
      | some facs => some ((eps.zip facs).foldl
          (fun acc p => acc ++ "_" ++ Int.repr p.1 ++ "_" ++
            float2str (p.2 * learning_rate))
          (s3 ++ "lr_schedule__0_" ++ float2str learning_rate))
  folder.map (fun fo =>
    (fo, "random_seed__" ++ Int.repr random_seed ++ "__" ++ timestamp))

/-- Concatenation of a list of strings. -/
def strConcat (l : List String) : String := l.foldr (fun a b => a ++ b) ""

/-- Modelled from the spec: the documented folder-name format, with the
hyperparameters listed in the order given. -/
def claimedFolderName (weight_decay : Option ℚ) (batch_size num_epochs : ℤ)
    (learning_rate : ℚ) (sched : Option (List ℤ × List ℚ))
    (hps : List (String × HPValue)) : String :=
  "num_epochs__" ++ Int.repr num_epochs ++ "__batch_size__" ++
    Int.repr batch_size ++ "__" ++
  (match weight_decay with
   | some wd => "weight_decay__" ++ float2str wd ++ "__"
   | Option.none => "") ++
  strConcat (hps.map (fun p => p.1 ++ "__" ++ hpValueStr p.2 ++ "__")) ++
  (match sched with
   | Option.none => "lr__" ++ float2str learning_rate
   | some pr => "lr_schedule__0_" ++ float2str learning_rate ++
       strConcat ((pr.1.zip pr.2).map
         (fun p => "_" ++ Int.repr p.1 ++ "_" ++ float2str (p.2 * learning_rate))))

/-! ## get_arguments (runner_utils.py, lines 105-308)

The function walks through its parameters; a parameter passed by the caller
(not `None`) is written into the `args` dict, otherwise a command-line flag is
registered for it.  Declared optimizer hyperparameters are treated the same
way, with `required=True` exactly when the descriptor has no `default` key.
Finally `argparse` parses the command line — erroring out (and terminating)
when a required registered flag is absent — and the parsed values are merged
into `args` with `args.update(cmdline_args)`.

Modelling choices:
* Python values are `PyVal` (including Python's `None`, `PyVal.pynone`, which
  `argparse` stores for absent optional flags without a `default`).
* The command line is a map from flag destination names to the (already
  type-converted) value it supplies, or `none` when the flag is absent.
  `argparse`-level failures other than a missing required flag (unrecognized
  flags, conversion errors, duplicate registration) are outside the model.
* `argparse` exit is `Except.error` carrying the missing destinations; the
  merged result dict is returned through its lookup function, where
  `args.update(cmdline_args)` makes the parsed values win on shared keys.
* `optimizer_name` and `optimizer_class` only appear in help text and are
  omitted.  The `type` field of a hyperparameter descriptor only affects
  command-line string conversion and is omitted as well. -/

/-- A Python value appearing in the arguments dictionary. -/
inductive PyVal where
  | int : ℤ → PyVal
  | float : ℚ → PyVal
  | str : String → PyVal
  | bool : Bool → PyVal
  | intList : List ℤ → PyVal
  | floatList : List ℚ → PyVal
  | pynone : PyVal
deriving DecidableEq

/-- An optimizer hyperparameter descriptor (an entry of `hyperparams`). -/
structure HParamSpec where
  name : String
  default : Option PyVal
deriving DecidableEq

/-- A registered command-line argument: destination, whether required, and the
default stored when the flag is absent. -/
structure ArgSpec where
  dest : String
  required : Bool
  dflt : PyVal
deriving DecidableEq

/-- Lookup in an association-list dictionary (the `optimizer_hyperparams`
keyword arguments). -/
def dlookup (d : List (String × PyVal)) (k : String) : Option PyVal :=
  (d.find? (fun p => p.1 == k)).map (fun p => p.2)

/-- A Python dict observed through its lookups: the empty dict. -/
def demp : String → Option PyVal := fun _ => Option.none

/-- Python dict assignment `d[k] = v`, observed through lookups. -/
def dset (d : String → Option PyVal) (k : String) (v : PyVal) :
    String → Option PyVal :=
  fun q => if q == k then some v else d q

/-- One of the thirteen named parameters of `get_arguments`: its name, the
caller-supplied value if any, whether its flag is `required`, and the default
`argparse` stores when the flag is absent. -/
structure FixedParam where
  nm : String
  given : Option PyVal
  req : Bool
  dflt : PyVal

/-- The thirteen named parameters of `get_arguments`. -/
structure CallerArgs where
  testproblem : Option PyVal
  weight_decay : Option PyVal
  batch_size : Option PyVal
  num_epochs : Option PyVal
  learning_rate : Option PyVal
  lr_sched_epochs : Option PyVal
  lr_sched_factors : Option PyVal
  random_seed : Option PyVal
  data_dir : Option PyVal
  output_dir : Option PyVal
  train_log_interval : Option PyVal
  print_train_iter : Option PyVal
  no_logs : Option PyVal

/-- The named parameters in source order, with the `required` and `default`
settings of lines 138-279 (the positional `testproblem` is required by
`argparse`). -/
def fixedSpecs (c : CallerArgs) : List FixedParam :=
  [⟨"testproblem", c.testproblem, true, PyVal.pynone⟩,
   ⟨"weight_decay", c.weight_decay, false, PyVal.pynone⟩,
   ⟨"batch_size", c.batch_size, true, PyVal.pynone⟩,
   ⟨"num_epochs", c.num_epochs, true, PyVal.pynone⟩,
   ⟨"learning_rate", c.learning_rate, true, PyVal.pynone⟩,
   ⟨"lr_sched_epochs", c.lr_sched_epochs, false, PyVal.pynone⟩,
   ⟨"lr_sched_factors", c.lr_sched_factors, false, PyVal.pynone⟩,
   ⟨"random_seed", c.random_seed, false, PyVal.int 42⟩,
   ⟨"data_dir", c.data_dir, false, PyVal.pynone⟩,
   ⟨"output_dir", c.output_dir, false, PyVal.str "results"⟩,
   ⟨"train_log_interval", c.train_log_interval, false, PyVal.int 10⟩,
   ⟨"print_train_iter", c.print_train_iter, false, PyVal.bool false⟩,
   ⟨"no_logs", c.no_logs, false, PyVal.bool false⟩]

/-- The thirteen fixed parameter names. -/
def fixedNames : List String :=
  ["testproblem", "weight_decay", "batch_size", "num_epochs", "learning_rate",
   "lr_sched_epochs", "lr_sched_factors", "random_seed", "data_dir",
   "output_dir", "train_log_interval", "print_train_iter", "no_logs"]

/-- One pass of `args[name] = value` writes over a list of items, writing the
item's value when it is present (`some`).  Both the named-parameter walk
(lines 138-279) and the hyperparameter loop (lines 282-285) have this shape,
with `key`/`giv` reading the item's name and optional supplied value. -/
def pyArgsFold {α : Type} (key : α → String) (giv : α → Option PyVal)
    (l : List α) (d : String → Option PyVal) : String → Option PyVal :=
  l.foldl
    (fun d x => match giv x with
      | some v => dset d (key x) v
      | Option.none => d) d

/-- One pass of `parser.add_argument` registrations over a list of items: an
item is registered exactly when its value was not supplied.  `req`/`dflt` give
the registered `required` flag and stored default. -/
def pyRegistry {α : Type} (key : α → String) (giv : α → Option PyVal)
    (req : α → Bool) (dflt : α → PyVal) (l : List α) : List ArgSpec :=
  l.filterMap
    (fun x => if (giv x).isSome then Option.none
      else some ⟨key x, req x, dflt x⟩)

/-- The `args` dict after the thirteen named parameters (lines 133-279). -/
def fixedArgs (c : CallerArgs) : String → Option PyVal :=
  pyArgsFold FixedParam.nm FixedParam.given (fixedSpecs c) demp

/-- The flags registered for named parameters the caller did not supply. -/
def fixedRegistry (c : CallerArgs) : List ArgSpec :=
  pyRegistry FixedParam.nm FixedParam.given FixedParam.req FixedParam.dflt
    (fixedSpecs c)

/-- The hyperparameter loop's `args` writes (lines 282-285). -/
def hpArgsFold (hyperparams : List HParamSpec)
    (optimizer_hyperparams : List (String × PyVal))
    (d : String → Option PyVal) : String → Option PyVal :=
  pyArgsFold HParamSpec.name (fun hp => dlookup optimizer_hyperparams hp.name)
    hyperparams d

/-- The flags registered for hyperparameters not supplied by the caller
(lines 286-303): required exactly when the descriptor has no default. -/
def hpRegistry (hyperparams : List HParamSpec)
    (optimizer_hyperparams : List (String × PyVal)) : List ArgSpec :=
  pyRegistry HParamSpec.name (fun hp => dlookup optimizer_hyperparams hp.name)
    (fun hp => hp.default.isNone) (fun hp => hp.default.getD PyVal.pynone)
    hyperparams

/-- The dict `vars(parser.parse_args())`, observed through lookups: a
registered destination maps to the command-line value when present, else to
the registered default. -/
def cmdlineArgsFun (registry : List ArgSpec) (cmdline : String → Option PyVal) :
    String → Option PyVal :=
  fun k => (registry.find? (fun s => k == s.dest)).map
    (fun s => (cmdline s.dest).getD s.dflt)

/-- `get_arguments`: either the list of missing required destinations
(`argparse` reports them and exits) or the merged mapping
`args.update(cmdline_args)`, observed through its lookups (a parsed value
wins on a shared key). -/
def get_arguments (hyperparams : List HParamSpec) (c : CallerArgs)
    (optimizer_hyperparams : List (String × PyVal))
    (cmdline : String → Option PyVal) :
    Except (List String) (String → Option PyVal) :=
  let args := hpArgsFold hyperparams optimizer_hyperparams (fixedArgs c)
  let registry := fixedRegistry c ++ hpRegistry hyperparams optimizer_hyperparams
  let missing :=
    (registry.filter (fun s => s.required && (cmdline s.dest).isNone)).map
      (fun s => s.dest)
  if missing.isEmpty then
    Except.ok (fun k => (cmdlineArgsFun registry cmdline k).or (args k))
  else Except.error missing

/-! ## Helper lemmas -/

/-- A list stripped of its trailing zeros does not end in a zero digit. -/
theorem endsInZeroB_rstrip0 (s : List Char) : endsInZeroB (rstrip0 s) = false := by
  have key : ∀ l : List Char,
      endsInZeroB (l.dropWhile (fun c => c == '0')).reverse = false := by
    intro l
    induction l with
    | nil => rfl
    | cons c t ih =>
      rw [List.dropWhile_cons]
      by_cases h : (c == '0') = true
      · simpa [h] using ih
      · rw [if_neg h]
        unfold endsInZeroB
        rw [List.getLast?_reverse]
        simpa using h
  exact key s.reverse

/-- Summing the squared norms over the non-bias parameters equals summing a
zero for each bias parameter. -/
theorem filter_sum_eq_if_sum (ps : List (String × List ℚ)) :
    ((ps.filter (fun p => !(hasSubstr p.1 "bias"))).map
        (fun p => sumOfSquares p.2)).sum =
      (ps.map (fun p => if hasSubstr p.1 "bias" then 0 else sumOfSquares p.2)).sum := by
  induction ps with
  | nil => rfl
  | cons p t ih =>
    by_cases h : hasSubstr p.1 "bias"
    · simp [List.filter_cons, h, ih]
    · simp [List.filter_cons, h, ih]

/-- The `np.argmax` scan over a block of consecutive integers all exceeding
the running maximum ends at the block's last position. -/
theorem npArgmaxAux_range'_succ :
    ∀ (m s i b v : ℕ), v < s →
      npArgmaxAux (List.range' s (m + 1)) i b v = i + m := by
  intro m
  induction m with
  | zero =>
    intro s i b v hv
    show npArgmaxAux [s] i b v = i
    simp [npArgmaxAux, hv]
  | succ m ih =>
    intro s i b v hv
    show npArgmaxAux (s :: List.range' (s + 1) (m + 1)) i b v = i + (m + 1)
    rw [npArgmaxAux, if_pos hv, ih (s + 1) (i + 1) i s (Nat.lt_succ_self s)]
    omega

/-- `np.argmax` of `[0, 1, ..., k-1]` is `k - 1` (its last position). -/
theorem npArgmax_range (k : ℕ) :
    npArgmax (List.range k) = if k = 0 then Option.none else some (k - 1) := by
  cases k with
  | zero => rfl
  | succ m =>
    have hr : List.range (m + 1) = 0 :: List.range' 1 m := by
      rw [List.range_eq_range']
      rfl
    rw [hr]
    cases m with
    | zero => rfl
    | succ m' =>
      show some (npArgmaxAux (List.range' 1 (m' + 1)) 1 0 0) = _
      rw [npArgmaxAux_range'_succ m' 1 1 0 0 Nat.one_pos]
      simp
      omega

/-- Filtering `range n` by a predicate that holds exactly below `k` yields
`range k`. -/
theorem filter_range_eq_range (p : ℕ → Bool) :
    ∀ (n k : ℕ), k ≤ n → (∀ i, i < n → (p i = true ↔ i < k)) →
      (List.range n).filter p = List.range k := by
  intro n
  induction n with
  | zero =>
    intro k hk _
    have : k = 0 := Nat.le_zero.mp hk
    subst this
    rfl
  | succ n ih =>
    intro k hk hp
    rw [List.range_succ, List.filter_append]
    by_cases hkn : k = n + 1
    · subst hkn
      have h1 : (List.range n).filter p = List.range n := by
        rw [List.filter_eq_self]
        intro a ha
        have ha' := List.mem_range.mp ha
        exact (hp a (Nat.lt_succ_of_lt ha')).mpr (Nat.lt_succ_of_lt ha')
      have h2 : p n = true := (hp n (Nat.lt_succ_self n)).mpr (Nat.lt_succ_self n)
      rw [h1, List.range_succ]
      simp [List.filter, h2]
    · have hkn' : k ≤ n := by omega
      have h2 : p n = false := by
        cases hpn : p n with
        | false => rfl
        | true =>
          exact absurd ((hp n (Nat.lt_succ_self n)).mp hpn) (by omega)
      rw [ih k hkn' (fun i hi => hp i (Nat.lt_succ_of_lt hi))]
      simp [List.filter, h2]

/-- Before the first breakpoint the multiplier is 1. -/
theorem determine_lr_before (eps : List ℤ) (facs : List ℚ) (epoch e0 : ℤ)
    (h : eps.head? = some e0) (hlt : epoch < e0) :
    determine_lr eps facs epoch = some 1 := by
  cases eps with
  | nil => simp at h
  | cons a t =>
    simp only [List.head?_cons, Option.some.injEq] at h
    subst h
    simp [determine_lr, hlt]

/-- For strictly ascending breakpoints, at an epoch dominating position `i`
and exceeded by every later breakpoint, `determine_lr` returns the factor at
position `i`. -/
theorem determine_lr_at (eps : List ℤ) (facs : List ℚ) (epoch : ℤ) (i : ℕ)
    (hsort : List.Sorted (· < ·) eps) (hi : i < eps.length)
    (hle : eps.get ⟨i, hi⟩ ≤ epoch)
    (hnext : ∀ (j : ℕ) (hj : j < eps.length), i < j → epoch < eps.get ⟨j, hj⟩) :
    determine_lr eps facs epoch = facs.get? i := by
  have hwhere : npWhereLe eps epoch = List.range (i + 1) := by
    apply filter_range_eq_range _ _ _ (Nat.succ_le_of_lt hi)
    intro j hj
    rw [List.getD_eq_getElem eps 0 hj]
    constructor
    · intro hdec
      by_contra hcon
      have hij : i < j := by omega
      have hgt : epoch < eps[j] := by simpa using hnext j hj hij
      have hle' : eps[j] ≤ epoch := of_decide_eq_true hdec
      omega
    · intro hji
      apply decide_eq_true
      have hji' : j ≤ i := by omega
      rcases eq_or_lt_of_le hji' with rfl | hlt2
      · simpa using hle
      · have hrel : eps[j] < eps[i] := by
          simpa using hsort.rel_get_of_lt
            (a := ⟨j, hj⟩) (b := ⟨i, hi⟩) (Fin.mk_lt_mk.mpr hlt2)
        have hle'' : eps[i] ≤ epoch := by simpa using hle
        exact le_trans (le_of_lt hrel) hle''
  have h0le : eps.get ⟨0, by omega⟩ ≤ epoch := by
    rcases Nat.eq_zero_or_pos i with rfl | hpos
    · exact hle
    · have hrel := hsort.rel_get_of_lt
        (a := ⟨0, by omega⟩) (b := ⟨i, hi⟩) (by simpa using hpos)
      exact le_trans (le_of_lt hrel) hle
  cases eps with
  | nil => exact absurd hi (by simp)
  | cons a t =>
    show determine_lr (a :: t) facs epoch = facs.get? i
    have h0a : a ≤ epoch := by simpa using h0le
    simp only [determine_lr, List.head?_cons]
    rw [if_neg (not_lt.2 h0a)]
    rw [hwhere, npArgmax_range]
    simp

/-- The value the caller supplied for key `k` during a `pyArgsFold` pass: the
last supplied value among the items named `k` (Python dict assignment
overwrites). -/
def genGiven {α : Type} (key : α → String) (giv : α → Option PyVal)
    (l : List α) (k : String) : Option PyVal :=
  l.foldr
    (fun x acc => if k == key x && (giv x).isSome then acc.or (giv x) else acc)
    Option.none

theorem genGiven_nil {α : Type} (key : α → String) (giv : α → Option PyVal)
    (k : String) : genGiven key giv [] k = Option.none := rfl

theorem genGiven_cons {α : Type} (key : α → String) (giv : α → Option PyVal)
    (x : α) (l : List α) (k : String) :
    genGiven key giv (x :: l) k =
      if k == key x && (giv x).isSome then (genGiven key giv l k).or (giv x)
      else genGiven key giv l k := rfl

/-- A `pyArgsFold` pass writes exactly the supplied values over `d`. -/
theorem pyArgsFold_eq {α : Type} (key : α → String) (giv : α → Option PyVal) :
    ∀ (l : List α) (d : String → Option PyVal) (k : String),
      pyArgsFold key giv l d k = (genGiven key giv l k).or (d k) := by
  intro l
  induction l with
  | nil => intro d k; simp [pyArgsFold, genGiven_nil, Option.none_or]
  | cons x t ih =>
    intro d k
    have hstep : pyArgsFold key giv (x :: t) d =
        pyArgsFold key giv t
          (match giv x with
            | some v => dset d (key x) v
            | Option.none => d) := rfl
    rw [hstep, ih, genGiven_cons]
    cases hg : giv x with
    | none => simp
    | some v =>
      by_cases hk : (k == key x) = true
      · have hd : dset d (key x) v k = some v := by simp [dset, hk]
        have hsome : ∀ b : Option PyVal, (some v).or b = some v := fun _ => rfl
        simp [hd, hk, Option.or_assoc, hsome]
      · have hd : dset d (key x) v k = d k := by simp [dset, hk]
        simp [hd, hk]

/-- Unfolding a `pyRegistry` pass one item at a time. -/
theorem pyRegistry_cons {α : Type} (key : α → String) (giv : α → Option PyVal)
    (req : α → Bool) (dflt : α → PyVal) (x : α) (l : List α) :
    pyRegistry key giv req dflt (x :: l) =
      if (giv x).isSome then pyRegistry key giv req dflt l
      else ⟨key x, req x, dflt x⟩ :: pyRegistry key giv req dflt l := by
  simp only [pyRegistry]
  rw [List.filterMap_cons]
  cases hg : giv x
  · rfl
  · rfl

/-- Looking up a destination among the flags a `pyRegistry` pass registered
finds exactly the first unsupplied item with that name. -/
theorem pyRegistry_find {α : Type} (key : α → String) (giv : α → Option PyVal)
    (req : α → Bool) (dflt : α → PyVal) (k : String) :
    ∀ l : List α,
      (pyRegistry key giv req dflt l).find? (fun s => k == s.dest)
        = (l.find? (fun x => k == key x && (giv x).isNone)).map
            (fun x => (⟨key x, req x, dflt x⟩ : ArgSpec)) := by
  intro l
  induction l with
  | nil => rfl
  | cons x t ih =>
    rw [pyRegistry_cons, List.find?_cons]
    cases hg : giv x with
    | some v =>
      simp only [Option.isSome_some, if_true, Option.isNone_some,
        Bool.and_false, cond_false]
      exact ih
    | none =>
      simp only [Option.isSome_none, Bool.false_eq_true, if_false,
        Option.isNone_none, Bool.and_true]
      rw [List.find?_cons]
      by_cases hk : (k == key x) = true
      · simp [hk]
      · simp only [hk, cond_false]
        exact ih

/-- A `pyRegistry` pass registered a missing required flag exactly when some
item is unsupplied, required, and absent from the command line. -/
theorem pyRegistry_any {α : Type} (key : α → String) (giv : α → Option PyVal)
    (req : α → Bool) (dflt : α → PyVal) (cmd : String → Option PyVal) :
    ∀ l : List α,
      (pyRegistry key giv req dflt l).any
          (fun s => s.required && (cmd s.dest).isNone)
        = l.any (fun x => (giv x).isNone && (req x && (cmd (key x)).isNone)) := by
  intro l
  induction l with
  | nil => rfl
  | cons x t ih =>
    rw [pyRegistry_cons, List.any_cons]
    cases hg : giv x with
    | some v =>
      simp only [Option.isSome_some, if_true, Option.isNone_some,
        Bool.false_and, Bool.false_or]
      exact ih
    | none =>
      simp only [Option.isSome_none, Bool.false_eq_true, if_false,
        Option.isNone_none, Bool.true_and, List.any_cons, ih]

/-- A key named by no item of the pass is not written. -/
theorem genGiven_eq_none {α : Type} (key : α → String) (giv : α → Option PyVal)
    (k : String) : ∀ l : List α, (∀ x ∈ l, (k == key x) = false) →
      genGiven key giv l k = Option.none := by
  intro l
  induction l with
  | nil => intro _; rfl
  | cons x t ih =>
    intro h
    rw [genGiven_cons, h x (by simp)]
    show genGiven key giv t k = Option.none
    exact ih (fun y hy => h y (by simp [hy]))

/-- With distinct item names, a caller-supplied key is not registered as a
command-line flag. -/
theorem genGiven_some_find_none {α : Type} (key : α → String)
    (giv : α → Option PyVal) (k : String) (v : PyVal) :
    ∀ l : List α, (l.map key).Nodup →
      genGiven key giv l k = some v →
      l.find? (fun x => k == key x && (giv x).isNone) = Option.none := by
  intro l
  induction l with
  | nil =>
    intro _ h
    rw [genGiven_nil] at h
    exact Option.noConfusion h
  | cons x t ih =>
    intro hnd hg
    rw [List.map_cons] at hnd
    obtain ⟨hx, hnd'⟩ := List.nodup_cons.mp hnd
    rw [genGiven_cons] at hg
    rw [List.find?_cons]
    by_cases hk : (k == key x) = true
    · have hkeq : k = key x := eq_of_beq hk
      have hrest : ∀ y ∈ t, (k == key y) = false := by
        intro y hy
        apply beq_eq_false_iff_ne.mpr
        intro hcon
        apply hx
        rw [← hkeq, hcon]
        exact List.mem_map_of_mem key hy
      cases hgx : giv x with
      | some w =>
        simp only [Option.isNone_some, Bool.and_false, cond_false]
        exact List.find?_eq_none.mpr
          (fun y hy => by simp [hrest y hy])
      | none =>
        rw [hgx] at hg
        simp only [Option.isSome_none, Bool.and_false, Bool.false_eq_true,
          if_false] at hg
        rw [genGiven_eq_none key giv k t hrest] at hg
        exact absurd hg (by simp)
    · have hkb : (k == key x) = false := by
        cases hkk : (k == key x)
        · rfl
        · exact absurd hkk hk
      simp only [hkb, Bool.false_and, Bool.false_eq_true, if_false,
        cond_false] at hg ⊢
      exact ih hnd' hg

/-- With distinct item names, a supplied item's value is what the pass wrote
for its name. -/
theorem genGiven_mem {α : Type} (key : α → String) (giv : α → Option PyVal)
    (x : α) (v : PyVal) :
    ∀ l : List α, (l.map key).Nodup → x ∈ l → giv x = some v →
      genGiven key giv l (key x) = some v := by
  intro l
  induction l with
  | nil => intro _ h; simp at h
  | cons y t ih =>
    intro hnd hmem hgx
    rw [List.map_cons] at hnd
    obtain ⟨hy, hnd'⟩ := List.nodup_cons.mp hnd
    rw [genGiven_cons]
    rcases List.mem_cons.mp hmem with rfl | hmt
    · rw [hgx]
      simp only [beq_self_eq_true, Option.isSome_some, Bool.and_true, if_true]
      rw [genGiven_eq_none key giv (key x) t
        (fun z hz => beq_eq_false_iff_ne.mpr
          (fun hcon => hy (by rw [hcon]; exact List.mem_map_of_mem key hz)))]
      rfl
    · have hne : (key x == key y) = false := by
        apply beq_eq_false_iff_ne.mpr
        intro hcon
        apply hy
        rw [← hcon]
        exact List.mem_map_of_mem key hmt
      simp only [hne, Bool.false_and, Bool.false_eq_true, if_false]
      exact ih hnd' hmt hgx

/-- A name carried by some item of the pass is either written by the pass or
registered as a flag. -/
theorem genGiven_cover {α : Type} (key : α → String) (giv : α → Option PyVal)
    (k : String) :
    ∀ l : List α, l.any (fun x => k == key x) = true →
      ((genGiven key giv l k).isSome
        || (l.find? (fun x => k == key x && (giv x).isNone)).isSome) = true := by
  intro l
  induction l with
  | nil => intro h; simp at h
  | cons x t ih =>
    intro h
    rw [genGiven_cons, List.find?_cons]
    by_cases hk : (k == key x) = true
    · cases hg : giv x with
      | some v => simp [hk, hg, Option.isSome_or]
      | none => simp [hk, hg]
    · simp only [hk, Bool.false_and, if_false]
      rw [List.any_cons] at h
      simp only [hk, Bool.false_or] at h
      exact ih h

/-- The missing-flags list is empty exactly when no registered flag is both
required and absent. -/
theorem isEmpty_missing (registry : List ArgSpec) (p : ArgSpec → Bool) :
    ((registry.filter p).map ArgSpec.dest).isEmpty = !(registry.any p) := by
  induction registry with
  | nil => rfl
  | cons s t ih =>
    rw [List.filter_cons, List.any_cons]
    cases hp : p s with
    | true => simp
    | false => simpa using ih

/-- The names of the thirteen named parameters, in source order. -/
theorem fixedSpecs_map_nm (c : CallerArgs) :
    (fixedSpecs c).map FixedParam.nm = fixedNames := rfl

/-- The value the caller passed for the named parameter `nm` (`none` when it
was left unsupplied). -/
def callerValue (c : CallerArgs) (nm : String) : Option PyVal :=
  genGiven FixedParam.nm FixedParam.given (fixedSpecs c) nm

/-- The result of `get_arguments` is an error exactly when the missing-flag
check fires. -/
theorem get_arguments_isOk (hps : List HParamSpec) (c : CallerArgs)
    (opt : List (String × PyVal)) (cmd : String → Option PyVal) :
    (get_arguments hps c opt cmd).isOk = false ↔
      ((fixedRegistry c ++ hpRegistry hps opt).any
        (fun s => s.required && (cmd s.dest).isNone)) = true := by
  simp only [get_arguments]
  rw [isEmpty_missing]
  cases hany : (fixedRegistry c ++ hpRegistry hps opt).any
      (fun s => s.required && (cmd s.dest).isNone) <;>
    simp [hany] <;> rfl

/-- On success, `get_arguments` returns the merged lookup function. -/
theorem get_arguments_ok_fun (hps : List HParamSpec) (c : CallerArgs)
    (opt : List (String × PyVal)) (cmd : String → Option PyVal)
    (f : String → Option PyVal)
    (hok : get_arguments hps c opt cmd = Except.ok f) :
    f = fun k =>
      (cmdlineArgsFun (fixedRegistry c ++ hpRegistry hps opt) cmd k).or
        (hpArgsFold hps opt (fixedArgs c) k) := by
  simp only [get_arguments] at hok
  split at hok
  · exact (Except.ok.inj hok).symm
  · exact Except.noConfusion hok

/-- On failure, `get_arguments` reports the missing required destinations. -/
theorem get_arguments_error_eq (hps : List HParamSpec) (c : CallerArgs)
    (opt : List (String × PyVal)) (cmd : String → Option PyVal)
    (er : List String)
    (herr : get_arguments hps c opt cmd = Except.error er) :
    er = (((fixedRegistry c ++ hpRegistry hps opt).filter
      (fun s => s.required && (cmd s.dest).isNone)).map (fun s => s.dest)) := by
  simp only [get_arguments] at herr
  split at herr
  · exact Except.noConfusion herr
  · exact (Except.error.inj herr).symm

/-- `C5` counterexample to the claim as stated: with batch size, epoch count
and learning rate all caller-supplied, no optimizer hyperparameters, and an
empty command line, none of the claim's required values is missing, yet
`get_arguments` still fails — the positional `testproblem` argument is also
required and absent from both sources. -/
def cNoTestproblem : CallerArgs :=
  ⟨Option.none, some (PyVal.float 1), some (PyVal.int 128),
   some (PyVal.int 100), some (PyVal.float 1), some PyVal.pynone,
   some PyVal.pynone, some (PyVal.int 42), some (PyVal.str "d"),
   some (PyVal.str "results"), some (PyVal.int 10), some (PyVal.bool false),
   some (PyVal.bool false)⟩

/-- `C9`: if either the breakpoint list or the factor list passed to
`make_lr_schedule` is `None`, the resulting schedule function returns the
multiplier 1 for every epoch. -/
theorem lr_schedule_none_constant :
    (∀ (facs : Option (List ℚ)) (epoch : ℤ),
        make_lr_schedule Option.none facs epoch = some 1)
    ∧ ∀ (eps : Option (List ℤ)) (epoch : ℤ),
        make_lr_schedule eps Option.none epoch = some 1 := by
  constructor
  · intro facs epoch; cases facs <;> rfl
  · intro eps epoch; cases eps <;> rfl

/-- `C1`: for every base learning rate, strictly ascending breakpoint list and
factor list of the same length, the schedule function returned by
`make_lr_schedule` maps an epoch to multiplier 1 when the epoch is strictly
less than the first breakpoint, and otherwise to the factor whose breakpoint
is the largest breakpoint `≤ epoch` (position `i` such that breakpoint `i` is
`≤ epoch` and every later breakpoint exceeds it); in particular, for
breakpoints `[50, 100]` and factors `[0.1, 0.01]` (the rationals 1/10 and
1/100) it returns 1 on epochs 0..49, 0.1 on 50..99 and 0.01 from 100 on.  The
base learning rate never enters the multiplier function, so the statement
covers every base learning rate. -/
theorem lr_schedule_step_function (eps : List ℤ) (facs : List ℚ) (epoch : ℤ)
    (hsort : List.Sorted (· < ·) eps) (hlen : facs.length = eps.length) :
    (∀ e0, eps.head? = some e0 → epoch < e0 →
        make_lr_schedule (some eps) (some facs) epoch = some 1)
    ∧ (∀ (i : ℕ) (hi : i < eps.length),
        eps.get ⟨i, hi⟩ ≤ epoch →
        (∀ (j : ℕ) (hj : j < eps.length), i < j → epoch < eps.get ⟨j, hj⟩) →
        make_lr_schedule (some eps) (some facs) epoch = facs.get? i)
    ∧ ∀ ep : ℤ,
        ((0 ≤ ep ∧ ep < 50) →
          make_lr_schedule (some [50, 100])
            (some [Rat.mk' 1 10, Rat.mk' 1 100]) ep = some 1)
        ∧ ((50 ≤ ep ∧ ep < 100) →
          make_lr_schedule (some [50, 100])
            (some [Rat.mk' 1 10, Rat.mk' 1 100]) ep = some (Rat.mk' 1 10))
        ∧ (100 ≤ ep →
          make_lr_schedule (some [50, 100])
            (some [Rat.mk' 1 10, Rat.mk' 1 100]) ep = some (Rat.mk' 1 100)) := by
  refine ⟨?_, ?_, ?_⟩
  · intro e0 h hlt
    exact determine_lr_before eps facs epoch e0 h hlt
  · intro i hi hle hnext
    exact determine_lr_at eps facs epoch i hsort hi hle hnext
  · intro ep
    refine ⟨?_, ?_, ?_⟩
    · rintro ⟨_, h50⟩
      exact determine_lr_before [50, 100] [Rat.mk' 1 10, Rat.mk' 1 100] ep 50
        rfl h50
    · rintro ⟨h50, h100⟩
      have h := determine_lr_at [50, 100] [Rat.mk' 1 10, Rat.mk' 1 100] ep 0
        (by decide) (by decide) (by simpa using h50)
        (by
          intro j hj hj0
          have hj2 : j < 2 := by simpa using hj
          have hj1 : j = 1 := by omega
          subst hj1
          simpa using h100)
      exact h
    · intro h100
      have h := determine_lr_at [50, 100] [Rat.mk' 1 10, Rat.mk' 1 100] ep 1
        (by decide) (by decide) (by simpa using h100)
        (by
          intro j hj hj1
          have hj2 : j < 2 := by simpa using hj
          omega)
      exact h

/-- Witness for `C1` at breakpoints `[50, 100]`, factors `[1/10, 1/100]`,
epoch 60. -/
theorem lr_schedule_step_function_witness :
    make_lr_schedule (some [50, 100]) (some [Rat.mk' 1 10, Rat.mk' 1 100]) 60
      = some (Rat.mk' 1 10) :=
  ((lr_schedule_step_function [50, 100] [Rat.mk' 1 10, Rat.mk' 1 100] 60
      (by decide) (by decide)).2.2 60).2.1 ⟨by decide, by decide⟩

/-- `C6`: `make_lr_schedule` validates nothing: for every pair of lists it
installs the raw `determine_lr` closure without any reported error, and on
malformed input the schedule yields an undefined result (for breakpoints `[0]`
with the shorter factor list `[]`, an uncaught IndexError, modelled `none`) or
an incorrect multiplier (for the non-ascending breakpoints `[100, 50]` with
factors `[3, 7]`, epoch 150 yields 7 although the largest breakpoint `≤ 150`
is 100, whose factor is 3). -/
theorem lr_schedule_no_validation :
    (∀ (eps : List ℤ) (facs : List ℚ),
        make_lr_schedule (some eps) (some facs) = determine_lr eps facs)
    ∧ determine_lr [0] [] 0 = Option.none
    ∧ determine_lr [100, 50] [3, 7] 150 = some 7
    ∧ specLrMultiplier [100, 50] [3, 7] 150 = some 3 :=
  ⟨fun _ _ => rfl, rfl, rfl, rfl⟩

/-- `C2` counterexample: `float2str` applied to 1.0 returns `"1.e+00"` (the
decimal point survives the zero-stripping), not `"1e+00"` as claimed. -/
theorem float2str_one_counterexample : float2str 1 ≠ "1e+00" := by decide

/-- `C2` (amended): `float2str` serializes a float to scientific notation with
ten fractional digits and the trailing zeros (but not the decimal point)
stripped from the mantissa, so the mantissa never ends in a zero digit; in
particular `float2str(1.0)` returns `"1.e+00"`. -/
theorem float2str_strips_zeros :
    float2str 1 = "1.e+00"
    ∧ float2str (Rat.mk' 1 2) = "5.e-01"
    ∧ ∀ s : List Char, endsInZeroB (rstrip0 s) = false :=
  ⟨by decide, by decide, endsInZeroB_rstrip0⟩

/-- `C3` counterexample: at weight decay 1 and a network state with the single
non-bias parameter `("weight", [2])`, the code returns `1 * 0.5 * 4 = 2`,
while the claimed formula (no one-half factor) gives 4. -/
theorem reg_loss_counterexample :
    get_regularization_loss 1 [("weight", [2])]
      ≠ claimedRegLoss 1 [("weight", [2])] := by
  have h : hasSubstr "weight" "bias" = false := rfl
  simp only [get_regularization_loss, claimedRegLoss, sumOfSquares,
    List.filter_cons, h, Bool.not_false, if_true, List.filter_nil,
    List.map_cons, List.map_nil, List.sum_cons, List.sum_nil]
  norm_num

/-- `C3` (amended): `get_regularization_loss` returns the weight-decay
coefficient multiplied by one half of the sum of the squared norms of exactly
those parameters whose names do not contain `bias`; bias-named parameters
contribute nothing. -/
theorem reg_loss_half_sum :
    (∀ (wd : ℚ) (ps : List (String × List ℚ)),
        get_regularization_loss wd ps =
          wd * (1 / 2) *
            (ps.map (fun p =>
              if hasSubstr p.1 "bias" then 0 else sumOfSquares p.2)).sum)
    ∧ ∀ (wd : ℚ) (ps : List (String × List ℚ)) (nm : String) (vals : List ℚ),
        hasSubstr nm "bias" = true →
        get_regularization_loss wd ((nm, vals) :: ps) =
          get_regularization_loss wd ps := by
  constructor
  · intro wd ps
    simp only [get_regularization_loss]
    rw [filter_sum_eq_if_sum, mul_assoc]
  · intro wd ps nm vals h
    simp [get_regularization_loss, List.filter_cons, h]

/-- Witness for `C3` (amended): the bias parameter `("bias", [3])` contributes
nothing at weight decay 1. -/
theorem reg_loss_half_sum_witness :
    hasSubstr "bias" "bias" = true
    ∧ get_regularization_loss 1 [("bias", [3])] = get_regularization_loss 1 [] :=
  ⟨by decide, reg_loss_half_sum.2 1 [] "bias" [3] (by decide)⟩

/-- Accumulating string concatenation via `foldl` over hyperparameter entries
equals the concatenation of the formatted entries. -/
theorem foldl_hp_entries :
    ∀ (l : List (String × HPValue)) (init : String),
      l.foldl (fun acc p => acc ++ p.1 ++ "__" ++ hpValueStr p.2 ++ "__") init
        = init ++ strConcat (l.map (fun p => p.1 ++ "__" ++ hpValueStr p.2 ++ "__")) := by
  intro l
  induction l with
  | nil => intro init; simp [strConcat]
  | cons x t ih =>
    intro init
    rw [List.foldl_cons, ih, List.map_cons]
    show _ = init ++ ((x.1 ++ "__" ++ hpValueStr x.2 ++ "__") ++ _)
    simp [String.append_assoc, strConcat]

/-- Accumulating string concatenation via `foldl` over schedule entries equals
the concatenation of the formatted entries. -/
theorem foldl_sched_entries (lr : ℚ) :
    ∀ (l : List (ℤ × ℚ)) (init : String),
      l.foldl (fun acc p => acc ++ "_" ++ Int.repr p.1 ++ "_" ++
          float2str (p.2 * lr)) init
        = init ++ strConcat (l.map (fun p => "_" ++ Int.repr p.1 ++ "_" ++
            float2str (p.2 * lr))) := by
  intro l
  induction l with
  | nil => intro init; simp [strConcat]
  | cons x t ih =>
    intro init
    rw [List.foldl_cons, ih, List.map_cons]
    show _ = init ++ (("_" ++ Int.repr x.1 ++ "_" ++ float2str (x.2 * lr)) ++ _)
    simp [String.append_assoc, strConcat]

/-- `C4`: for every input tuple (with the hyperparameter mapping given by its
sorted association list, as a Python dict yields it), the folder name equals
the documented format — the `num_epochs`/`batch_size` segments, the
`weight_decay` segment exactly when a weight decay is given, one
`name__value__` segment per hyperparameter in order, ending `lr__<LR>` without
a schedule and `lr_schedule__0_<LR>` plus one `_<epoch>_<factor*LR>` segment
per breakpoint/factor pair with one — and the file name equals
`random_seed__<S>__<timestamp>`. -/
theorem run_name_format (wd : Option ℚ) (bs ne : ℤ) (lr : ℚ) (seed : ℤ)
    (hps : List (String × HPValue)) (ts : String)
    (hsorted : List.Sorted hpSortRel hps) :
    (∀ facs : Option (List ℚ),
        make_run_name wd bs ne lr Option.none facs seed hps ts
          = some (claimedFolderName wd bs ne lr Option.none hps,
              "random_seed__" ++ Int.repr seed ++ "__" ++ ts))
    ∧ ∀ (eps : List ℤ) (facs : List ℚ),
        make_run_name wd bs ne lr (some eps) (some facs) seed hps ts
          = some (claimedFolderName wd bs ne lr (some (eps, facs)) hps,
              "random_seed__" ++ Int.repr seed ++ "__" ++ ts) := by
  constructor
  · intro facs
    simp only [make_run_name, hsorted.insertionSort_eq, foldl_hp_entries]
    cases wd <;>
      simp [claimedFolderName, ← String.append_assoc]
  · intro eps facs
    simp only [make_run_name, hsorted.insertionSort_eq, foldl_hp_entries,
      foldl_sched_entries]
    cases wd <;>
      simp [claimedFolderName, ← String.append_assoc]

/-- Witness for `C4` at a concrete sorted hyperparameter list. -/
theorem run_name_format_witness :
    List.Sorted hpSortRel [("beta", HPValue.int 2), ("momentum", HPValue.str "x")]
    ∧ make_run_name (some 1) 128 100 1 Option.none Option.none 42
        [("beta", HPValue.int 2), ("momentum", HPValue.str "x")] "T"
      = some (claimedFolderName (some 1) 128 100 1 Option.none
            [("beta", HPValue.int 2), ("momentum", HPValue.str "x")],
          "random_seed__" ++ Int.repr 42 ++ "__" ++ "T") :=
  ⟨by decide,
   (run_name_format (some 1) 128 100 1 42
      [("beta", HPValue.int 2), ("momentum", HPValue.str "x")] "T"
      (by decide)).1 Option.none⟩

/-- `C5` (amended): `get_arguments` fails (reports the missing flags and
terminates) exactly when a required configuration value — the testproblem
name, batch size, number of epochs, learning rate, or an optimizer
hyperparameter with no declared default — is neither supplied by the caller
nor present on the command line; otherwise it returns a merged mapping that
binds every named parameter and every declared hyperparameter.  (Hypotheses:
hyperparameter names are distinct and do not collide with the thirteen named
parameters — name collisions would crash `argparse` at registration, outside
this model.) -/
theorem get_arguments_required (hps : List HParamSpec) (c : CallerArgs)
    (opt : List (String × PyVal)) (cmd : String → Option PyVal)
    (hdisj : ∀ hp ∈ hps, ¬ hp.name ∈ fixedNames)
    (hnodup : (hps.map HParamSpec.name).Nodup) :
    ((get_arguments hps c opt cmd).isOk = false ↔
        ((c.testproblem = Option.none ∧ cmd "testproblem" = Option.none)
        ∨ (c.batch_size = Option.none ∧ cmd "batch_size" = Option.none)
        ∨ (c.num_epochs = Option.none ∧ cmd "num_epochs" = Option.none)
        ∨ (c.learning_rate = Option.none ∧ cmd "learning_rate" = Option.none)
        ∨ ∃ hp ∈ hps, hp.default = Option.none ∧
            dlookup opt hp.name = Option.none ∧ cmd hp.name = Option.none))
    ∧ ∀ f, get_arguments hps c opt cmd = Except.ok f →
        ∀ nm, nm ∈ fixedNames ∨ nm ∈ hps.map HParamSpec.name →
          (f nm).isSome = true := by
  constructor
  · rw [get_arguments_isOk, List.any_append]
    rw [fixedRegistry, hpRegistry, pyRegistry_any, pyRegistry_any]
    rw [Bool.or_eq_true, List.any_eq_true, List.any_eq_true]
    constructor
    · rintro (hfx | hhp)
      · obtain ⟨fp, hfp, hpred⟩ := hfx
        simp only [fixedSpecs, List.mem_cons, List.not_mem_nil, or_false]
          at hfp
        rcases hfp with rfl|rfl|rfl|rfl|rfl|rfl|rfl|rfl|rfl|rfl|rfl|rfl|rfl <;>
          simp only [Bool.and_eq_true, Option.isNone_iff_eq_none,
            Bool.false_eq_true, false_and, and_false, true_and] at hpred <;>
          tauto
      · obtain ⟨hp, hhm, hpred⟩ := hhp
        simp only [Bool.and_eq_true, Option.isNone_iff_eq_none] at hpred
        exact Or.inr (Or.inr (Or.inr (Or.inr
          ⟨hp, hhm, hpred.2.1, hpred.1, hpred.2.2⟩)))
    · rintro (⟨h1, h2⟩ | ⟨h1, h2⟩ | ⟨h1, h2⟩ | ⟨h1, h2⟩ |
        ⟨hp, hmem, hd, ho, hc⟩)
      · exact Or.inl ⟨⟨"testproblem", c.testproblem, true, PyVal.pynone⟩,
          by simp [fixedSpecs], by simp [h1, h2]⟩
      · exact Or.inl ⟨⟨"batch_size", c.batch_size, true, PyVal.pynone⟩,
          by simp [fixedSpecs], by simp [h1, h2]⟩
      · exact Or.inl ⟨⟨"num_epochs", c.num_epochs, true, PyVal.pynone⟩,
          by simp [fixedSpecs], by simp [h1, h2]⟩
      · exact Or.inl ⟨⟨"learning_rate", c.learning_rate, true, PyVal.pynone⟩,
          by simp [fixedSpecs], by simp [h1, h2]⟩
      · exact Or.inr ⟨hp, hmem, by simp [hd, ho, hc]⟩
  · intro f hok nm hnm
    rw [get_arguments_ok_fun hps c opt cmd f hok]
    rw [Option.isSome_or]
    have hcmdS : (cmdlineArgsFun (fixedRegistry c ++ hpRegistry hps opt)
          cmd nm).isSome
        = (((fixedSpecs c).find?
              (fun x => nm == x.nm && x.given.isNone)).isSome
            || (hps.find?
              (fun x => nm == x.name && (dlookup opt x.name).isNone)).isSome) := by
      simp only [cmdlineArgsFun]
      rw [List.find?_append, fixedRegistry, hpRegistry, pyRegistry_find,
        pyRegistry_find]
      cases h1 : (fixedSpecs c).find? (fun x => nm == x.nm && x.given.isNone) <;>
        cases h2 : hps.find?
            (fun x => nm == x.name && (dlookup opt x.name).isNone) <;>
          simp
    have hargsS : (hpArgsFold hps opt (fixedArgs c) nm).isSome
        = ((genGiven HParamSpec.name (fun hp => dlookup opt hp.name)
              hps nm).isSome
            || (genGiven FixedParam.nm FixedParam.given
              (fixedSpecs c) nm).isSome) := by
      rw [hpArgsFold, pyArgsFold_eq, fixedArgs, pyArgsFold_eq,
        Option.isSome_or, Option.isSome_or]
      simp [demp]
    rw [hcmdS, hargsS]
    rcases hnm with hfx | hhp
    · have hmem : ∃ fp ∈ fixedSpecs c, fp.nm = nm := by
        rw [← fixedSpecs_map_nm c] at hfx
        obtain ⟨fp, h1, h2⟩ := List.mem_map.mp hfx
        exact ⟨fp, h1, h2⟩
      obtain ⟨fp, hfm, hfn⟩ := hmem
      have hany : (fixedSpecs c).any (fun x => nm == x.nm) = true :=
        List.any_eq_true.mpr ⟨fp, hfm, by rw [hfn]; exact beq_self_eq_true nm⟩
      have hcov := genGiven_cover FixedParam.nm FixedParam.given nm
        (fixedSpecs c) hany
      simp only [Bool.or_eq_true] at hcov
      rcases hcov with h | h <;> simp [h]
    · have hmem : ∃ hp ∈ hps, hp.name = nm := by
        obtain ⟨hp, h1, h2⟩ := List.mem_map.mp hhp
        exact ⟨hp, h1, h2⟩
      obtain ⟨hp, hfm, hfn⟩ := hmem
      have hany : hps.any (fun x => nm == x.name) = true :=
        List.any_eq_true.mpr ⟨hp, hfm, by rw [hfn]; exact beq_self_eq_true nm⟩
      have hcov := genGiven_cover HParamSpec.name
        (fun x => dlookup opt x.name) nm hps hany
      simp only [Bool.or_eq_true] at hcov
      rcases hcov with h | h <;> simp [h]

/-- `C10`: when `random_seed` is neither supplied by the caller nor given on
the command line, the mapping returned by `get_arguments` binds `random_seed`
to the default 42, and the missing seed never causes argument resolution to
fail (the flag has a default and is not required).  (Hypothesis: no declared
hyperparameter reuses a fixed parameter name.) -/
theorem random_seed_default (hps : List HParamSpec) (c : CallerArgs)
    (opt : List (String × PyVal)) (cmd : String → Option PyVal)
    (hdisj : ∀ hp ∈ hps, ¬ hp.name ∈ fixedNames)
    (hseed : c.random_seed = Option.none)
    (hcmd : cmd "random_seed" = Option.none) :
    (∀ f, get_arguments hps c opt cmd = Except.ok f →
        f "random_seed" = some (PyVal.int 42))
    ∧ ∀ er, get_arguments hps c opt cmd = Except.error er →
        ¬ "random_seed" ∈ er := by
  constructor
  · intro f hok
    rw [get_arguments_ok_fun hps c opt cmd f hok]
    show (cmdlineArgsFun (fixedRegistry c ++ hpRegistry hps opt) cmd
        "random_seed").or (hpArgsFold hps opt (fixedArgs c) "random_seed")
      = some (PyVal.int 42)
    have hfind : (fixedSpecs c).find?
        (fun x => "random_seed" == x.nm && x.given.isNone)
        = some ⟨"random_seed", c.random_seed, false, PyVal.int 42⟩ := by
      simp [fixedSpecs, List.find?_cons, hseed]
    have hc : cmdlineArgsFun (fixedRegistry c ++ hpRegistry hps opt) cmd
        "random_seed" = some (PyVal.int 42) := by
      simp only [cmdlineArgsFun]
      rw [List.find?_append, fixedRegistry, pyRegistry_find, hfind]
      simp [hcmd]
    rw [hc]
    rfl
  · intro er herr hmem
    rw [get_arguments_error_eq hps c opt cmd er herr] at hmem
    obtain ⟨s, hsf, hsd⟩ := List.mem_map.mp hmem
    obtain ⟨hsreg, hsp⟩ := List.mem_filter.mp hsf
    rcases List.mem_append.mp hsreg with hsA | hsB
    · rw [fixedRegistry, pyRegistry] at hsA
      obtain ⟨fp, hfp, heq⟩ := List.mem_filterMap.mp hsA
      by_cases hg : (fp.given).isSome
      · rw [if_pos hg] at heq
        exact Option.noConfusion heq
      · rw [if_neg hg] at heq
        have hs := Option.some.inj heq
        subst hs
        simp only [fixedSpecs, List.mem_cons, List.not_mem_nil, or_false]
          at hfp
        rcases hfp with rfl|rfl|rfl|rfl|rfl|rfl|rfl|rfl|rfl|rfl|rfl|rfl|rfl <;>
          simp_all
    · rw [hpRegistry, pyRegistry] at hsB
      obtain ⟨hp, hhp, heq⟩ := List.mem_filterMap.mp hsB
      by_cases hg : (dlookup opt hp.name).isSome
      · rw [if_pos hg] at heq
        exact Option.noConfusion heq
      · rw [if_neg hg] at heq
        have hs := Option.some.inj heq
        have hdest : s.dest = hp.name := by rw [← hs]
        refine hdisj hp hhp ?_
        rw [← hdest, hsd]
        decide

/-- `C8`: caller-supplied values always win in `get_arguments`: whatever the
command line holds, a named parameter the caller passed with a non-`None`
value, and a declared optimizer hyperparameter the caller supplied, are bound
in the returned mapping to exactly the caller's value — no command-line flag
is registered for a caller-supplied parameter.  (Hypotheses: hyperparameter
names are distinct and do not collide with the thirteen named parameters.) -/
theorem caller_args_win (hps : List HParamSpec) (c : CallerArgs)
    (opt : List (String × PyVal)) (cmd : String → Option PyVal)
    (hdisj : ∀ hp ∈ hps, ¬ hp.name ∈ fixedNames)
    (hnodup : (hps.map HParamSpec.name).Nodup) :
    ∀ f, get_arguments hps c opt cmd = Except.ok f →
      (∀ nm v, nm ∈ fixedNames → callerValue c nm = some v → f nm = some v)
      ∧ ∀ hp ∈ hps, ∀ v, dlookup opt hp.name = some v →
          f hp.name = some v := by
  intro f hok
  rw [get_arguments_ok_fun hps c opt cmd f hok]
  constructor
  · intro nm v hnm hcv
    have hfindF : (fixedSpecs c).find?
        (fun x => nm == x.nm && x.given.isNone) = Option.none := by
      apply genGiven_some_find_none FixedParam.nm FixedParam.given nm v
      · rw [fixedSpecs_map_nm]
        decide
      · exact hcv
    have hfindH : hps.find?
        (fun x => nm == x.name && (dlookup opt x.name).isNone)
        = Option.none :=
      List.find?_eq_none.mpr (fun hp hmem => by
        have hne : (nm == hp.name) = false :=
          beq_eq_false_iff_ne.mpr (fun hcon => hdisj hp hmem (hcon ▸ hnm))
        simp [hne])
    have hcmd0 : cmdlineArgsFun (fixedRegistry c ++ hpRegistry hps opt) cmd nm
        = Option.none := by
      simp only [cmdlineArgsFun]
      rw [List.find?_append, fixedRegistry, hpRegistry, pyRegistry_find,
        pyRegistry_find, hfindF, hfindH]
      rfl
    have hargs : hpArgsFold hps opt (fixedArgs c) nm = some v := by
      rw [hpArgsFold, pyArgsFold_eq]
      have hG : genGiven HParamSpec.name (fun hp => dlookup opt hp.name)
          hps nm = Option.none :=
        genGiven_eq_none _ _ nm hps (fun hp hmem =>
          beq_eq_false_iff_ne.mpr (fun hcon => hdisj hp hmem (hcon ▸ hnm)))
      rw [hG, Option.none_or, fixedArgs, pyArgsFold_eq]
      rw [show genGiven FixedParam.nm FixedParam.given (fixedSpecs c) nm
        = some v from hcv]
      rfl
    show (cmdlineArgsFun (fixedRegistry c ++ hpRegistry hps opt) cmd nm).or
      (hpArgsFold hps opt (fixedArgs c) nm) = some v
    rw [hcmd0, hargs]
    rfl
  · intro hp hmem v hv
    have hGhp : genGiven HParamSpec.name (fun x => dlookup opt x.name) hps
        hp.name = some v :=
      genGiven_mem HParamSpec.name _ hp v hps hnodup hmem hv
    have hfindH : hps.find?
        (fun x => hp.name == x.name && (dlookup opt x.name).isNone)
        = Option.none :=
      genGiven_some_find_none _ _ hp.name v hps hnodup hGhp
    have hfindF : (fixedSpecs c).find?
        (fun x => hp.name == x.nm && x.given.isNone) = Option.none :=
      List.find?_eq_none.mpr (fun fp hfm => by
        have hne : (hp.name == fp.nm) = false :=
          beq_eq_false_iff_ne.mpr (fun hcon => hdisj hp hmem (by
            rw [hcon, ← fixedSpecs_map_nm c]
            exact List.mem_map_of_mem _ hfm))
        simp [hne])
    have hcmd0 : cmdlineArgsFun (fixedRegistry c ++ hpRegistry hps opt) cmd
        hp.name = Option.none := by
      simp only [cmdlineArgsFun]
      rw [List.find?_append, fixedRegistry, hpRegistry, pyRegistry_find,
        pyRegistry_find, hfindF, hfindH]
      rfl
    show (cmdlineArgsFun (fixedRegistry c ++ hpRegistry hps opt) cmd
        hp.name).or (hpArgsFold hps opt (fixedArgs c) hp.name) = some v
    rw [hcmd0, hpArgsFold, pyArgsFold_eq, hGhp]
    rfl

/-- A caller configuration supplying everything (used in witnesses). -/
def cFull : CallerArgs :=
  ⟨some (PyVal.str "cifar10_vgg16"), some (PyVal.float 1),
   some (PyVal.int 128), some (PyVal.int 100), some (PyVal.float 1),
   some PyVal.pynone, some PyVal.pynone, some (PyVal.int 7),
   some (PyVal.str "d"), some (PyVal.str "results"), some (PyVal.int 10),
   some (PyVal.bool false), some (PyVal.bool false)⟩

/-- Like `cFull` but with `random_seed` left unsupplied. -/
def cSeedless : CallerArgs :=
  ⟨some (PyVal.str "cifar10_vgg16"), some (PyVal.float 1),
   some (PyVal.int 128), some (PyVal.int 100), some (PyVal.float 1),
   some PyVal.pynone, some PyVal.pynone, Option.none,
   some (PyVal.str "d"), some (PyVal.str "results"), some (PyVal.int 10),
   some (PyVal.bool false), some (PyVal.bool false)⟩

/-- One declared hyperparameter, supplied by the caller. -/
def hpsW : List HParamSpec := [⟨"momentum", Option.none⟩]

/-- The caller-supplied optimizer hyperparameters for the witnesses. -/
def optW : List (String × PyVal) := [("momentum", PyVal.float 0)]

/-- The merged mapping `get_arguments` returns at the `C8` witness input. -/
def mergedW : String → Option PyVal :=
  fun k => (cmdlineArgsFun (fixedRegistry cFull ++ hpRegistry hpsW optW)
      (fun _ => Option.none) k).or
    (hpArgsFold hpsW optW (fixedArgs cFull) k)

/-- The merged mapping `get_arguments` returns at the `C10` witness input. -/
def mergedSeedless : String → Option PyVal :=
  fun k => (cmdlineArgsFun (fixedRegistry cSeedless ++ hpRegistry [] [])
      (fun _ => Option.none) k).or
    (hpArgsFold [] [] (fixedArgs cSeedless) k)

/-- Witness for `C5` (amended): with everything supplied except the
testproblem name and an empty command line, resolution fails. -/
theorem get_arguments_required_witness :
    (get_arguments [] cNoTestproblem [] (fun _ => Option.none)).isOk
      = false :=
  (get_arguments_required [] cNoTestproblem [] (fun _ => Option.none)
    (by simp) (by simp)).1.mpr (Or.inl ⟨rfl, rfl⟩)

/-- `C5` counterexample to the claim as stated: batch size, epoch count and
learning rate are all caller-supplied and no hyperparameter is declared, so
none of the claim's required values is missing from both sources, yet
`get_arguments` fails (the positional testproblem argument is missing). -/
theorem get_arguments_counterexample :
    cNoTestproblem.batch_size = some (PyVal.int 128)
    ∧ cNoTestproblem.num_epochs = some (PyVal.int 100)
    ∧ cNoTestproblem.learning_rate = some (PyVal.float 1)
    ∧ (get_arguments [] cNoTestproblem [] (fun _ => Option.none)).isOk
        = false :=
  ⟨rfl, rfl, rfl, by decide⟩

/-- Witness for `C10` at a concrete seedless input. -/
theorem random_seed_default_witness :
    cSeedless.random_seed = Option.none
    ∧ mergedSeedless "random_seed" = some (PyVal.int 42) :=
  ⟨rfl, (random_seed_default [] cSeedless [] (fun _ => Option.none)
    (by simp) rfl rfl).1 mergedSeedless rfl⟩

/-- Witness for `C8`: the caller-supplied batch size and momentum survive
into the merged mapping. -/
theorem caller_args_win_witness :
    mergedW "batch_size" = some (PyVal.int 128)
    ∧ mergedW "momentum" = some (PyVal.float 0) :=
  ⟨(caller_args_win hpsW cFull optW (fun _ => Option.none)
      (by decide) (by decide) mergedW rfl).1 "batch_size" (PyVal.int 128)
      (by decide) rfl,
   (caller_args_win hpsW cFull optW (fun _ => Option.none)
      (by decide) (by decide) mergedW rfl).2 ⟨"momentum", Option.none⟩
      (by decide) (PyVal.float 0) rfl⟩

/-- `C7` counterexample: two calls with identical listed arguments but made at
different wall-clock times (timestamps `"A"` and `"B"`) return different file
names, so the results are not determined by the listed arguments alone. -/
theorem run_name_timestamp_counterexample :
    make_run_name Option.none 1 1 1 Option.none Option.none 0 [] "A"
      ≠ make_run_name Option.none 1 1 1 Option.none Option.none 0 [] "B" := by
  decide

/-- `C7` (amended): `make_run_name` is deterministic given the wall-clock
timestamp read at call time: the folder name depends only on the listed
arguments (it is identical regardless of the timestamp), and two calls with
identical arguments and equal timestamps return identical folder and file
names. -/
theorem run_name_deterministic (wd : Option ℚ) (bs ne : ℤ) (lr : ℚ)
    (eps : Option (List ℤ)) (facs : Option (List ℚ)) (seed : ℤ)
    (hps : List (String × HPValue)) (ts1 ts2 : String) :
    ((make_run_name wd bs ne lr eps facs seed hps ts1).map Prod.fst
      = (make_run_name wd bs ne lr eps facs seed hps ts2).map Prod.fst)
    ∧ (ts1 = ts2 →
        make_run_name wd bs ne lr eps facs seed hps ts1
          = make_run_name wd bs ne lr eps facs seed hps ts2) := by
  constructor
  · cases eps <;> cases facs <;> simp [make_run_name]
  · intro h; rw [h]

/-- Witness for `C7` (amended) at a concrete input. -/
theorem run_name_deterministic_witness :
    ((make_run_name Option.none 1 1 1 Option.none Option.none 0 [] "A").map Prod.fst
      = (make_run_name Option.none 1 1 1 Option.none Option.none 0 [] "B").map Prod.fst)
    ∧ make_run_name Option.none 1 1 1 Option.none Option.none 0 [] "T"
        = make_run_name Option.none 1 1 1 Option.none Option.none 0 [] "T" :=
  ⟨(run_name_deterministic Option.none 1 1 1 Option.none Option.none 0 [] "A" "B").1,
   (run_name_deterministic Option.none 1 1 1 Option.none Option.none 0 [] "T" "T").2 rfl⟩

/-! ## Model validation

Concrete evaluations of the embedded definitions against outputs of the
Python source (`float2str`, `determine_lr`, substring testing, string
ordering, and an end-to-end run name). -/

/-- `float2str` matches CPython's formatting on sample values: 5e-4, 0.0,
-0.5 and 123.0. -/
theorem float2str_check :
    float2str (Rat.mk' 1 2000) = "5.e-04"
    ∧ float2str 0 = "0.e+00"
    ∧ float2str (Rat.mk' (-1) 2) = "-5.e-01"
    ∧ float2str 123 = "1.23e+02" :=
  ⟨by decide, by decide, by decide, by decide⟩

/-- `determine_lr` matches the schedule of the source doc comment on the
`[50, 100]` example and raises (None) on an out-of-range factor index. -/
theorem determine_lr_check :
    determine_lr [50, 100] [Rat.mk' 1 10, Rat.mk' 1 100] 60
      = some (Rat.mk' 1 10)
    ∧ determine_lr [50, 100] [Rat.mk' 1 10, Rat.mk' 1 100] 120
      = some (Rat.mk' 1 100)
    ∧ determine_lr [0] ([] : List ℚ) 0 = Option.none :=
  ⟨rfl, rfl, rfl⟩

/-- Substring testing and string ordering match Python's `in` and `<`. -/
theorem str_model_check :
    hasSubstr "weight" "bias" = false
    ∧ hasSubstr "features.0.bias" "bias" = true
    ∧ strLt "lr" "momentum" = true :=
  ⟨rfl, rfl, rfl⟩

/-- An end-to-end run name matching the Python output. -/
theorem make_run_name_check :
    make_run_name Option.none 128 100 1 Option.none Option.none 42
      [("momentum", HPValue.int 9)] "2019-01-01-00-00-00"
      = some ("num_epochs__100__batch_size__128__momentum__9__lr__1.e+00",
          "random_seed__42__2019-01-01-00-00-00")
    ∧ make_run_name (some (Rat.mk' 1 2000)) 128 100 1 (some [50])
        Option.none 42 [] "T" = Option.none :=
  ⟨by decide, by decide⟩

end DeepOBS
